import Mathlib

/-!
Shallow embedding of src/Fault_Tolerant_Management_System.cpp.

The C++ program stores resources and projects behind shared pointers:
a project list and a back-reference keep an object alive even after the
registry map is overwritten.  We model this with append-only heaps
(`resHeap`, `projHeap`) addressed by `Nat`, and the two `std::map`s as
association lists from id strings to heap addresses with
insert-or-overwrite semantics, matching `operator[]` assignment.
The transaction log is the list of lines appended by `logTransaction`.
Console output of an operation, where a claim needs it, is returned as a
string next to the new state.
-/

namespace FTMS

/-- States of a resource, from the C++ `enum class ResourceState`. -/
inductive ResourceState where
  | Idle
  | InUse
  | UnderMaintenance
  deriving DecidableEq, Repr

/-- The `Resource` class: id, type string ("worker" or "equipment" as produced
by the shell), current state, and the back-reference `allocatedProject`
modelled as an optional project heap address. -/
structure Resource where
  id : String
  type : String
  state : ResourceState
  allocatedProject : Option Nat
  deriving DecidableEq, Repr

/-- The `Project` class: id, name, and the ordered vector of allocated
resources, modelled as resource heap addresses (shared pointers). -/
structure Project where
  id : String
  name : String
  resources : List Nat
  deriving DecidableEq, Repr

/-- The `ResourceManager` plus the object heap the shared pointers live in.
`resMap` and `projMap` are the two `std::map` members; `log` is the
transaction log file content as a list of lines. -/
structure ResourceManager where
  resHeap : List Resource
  projHeap : List Project
  resMap : List (String × Nat)
  projMap : List (String × Nat)
  log : List String
  deriving DecidableEq, Repr

/-- A freshly constructed `ResourceManager`. -/
def ResourceManager.empty : ResourceManager :=
  ⟨[], [], [], [], []⟩

/-- Lookup in an association list, as `std::map::find`. -/
def mapFind (k : String) : List (String × Nat) → Option Nat
  | [] => none
  | (k₁, v) :: rest => if k₁ = k then some v else mapFind k rest

/-- Insert-or-overwrite, as assignment through `std::map::operator[]`. -/
def mapInsert (k : String) (v : Nat) : List (String × Nat) → List (String × Nat)
  | [] => [(k, v)]
  | (k₁, v₁) :: rest => if k₁ = k then (k, v) :: rest else (k₁, v₁) :: mapInsert k v rest

/-- `ResourceManager::addResource`: `resources[id] = make_shared<Resource>(id, type)`.
A fresh resource object (state Idle, no allocation, per the `Resource`
constructor) is appended to the heap and the map entry is set to it,
overwriting any previous entry for the same id. -/
def addResource (m : ResourceManager) (id ty : String) : ResourceManager :=
  { m with
    resHeap := m.resHeap ++ [⟨id, ty, ResourceState.Idle, none⟩],
    resMap := mapInsert id m.resHeap.length m.resMap }

/-- `ResourceManager::addProject`: `projects[id] = make_shared<Project>(id, name)`. -/
def addProject (m : ResourceManager) (id name : String) : ResourceManager :=
  { m with
    projHeap := m.projHeap ++ [⟨id, name, []⟩],
    projMap := mapInsert id m.projHeap.length m.projMap }

/-- `ResourceManager::getResource`: returns the mapped object (here its heap
address), or fails (`none` models the thrown `"Resource not found"`). -/
def getResource (m : ResourceManager) (id : String) : Option Nat :=
  mapFind id m.resMap

/-- `ResourceManager::getProject`: address of the mapped project, or failure. -/
def getProject (m : ResourceManager) (id : String) : Option Nat :=
  mapFind id m.projMap

/-- `ResourceManager::logTransaction`: append one line to the log file. -/
def logTransaction (m : ResourceManager) (message : String) : ResourceManager :=
  { m with log := m.log ++ [message] }

/-- `ResourceManager::allocateResourceToProject`, as invoked by the shell with
`rm.getProject(projectId)` as argument: the project is looked up first, then
the resource; then the resource state is set to InUse, `Project::addResource`
pushes the resource onto the project list and overwrites the back-reference,
and one log line is appended.  A failed lookup aborts with no effect. -/
def allocateResourceToProject (m : ResourceManager) (resourceId projectId : String) :
    Option ResourceManager :=
  (getProject m projectId).bind fun pa =>
    (getResource m resourceId).bind fun ra =>
      (m.resHeap[ra]?).bind fun r =>
        (m.projHeap[pa]?).map fun p =>
          let r₁ : Resource := { r with state := ResourceState.InUse }
          let p₁ : Project := { p with resources := p.resources ++ [ra] }
          let r₂ : Resource := { r₁ with allocatedProject := some pa }
          { m with
            resHeap := (m.resHeap.set ra r₁).set ra r₂,
            projHeap := m.projHeap.set pa p₁,
            log := m.log ++ ["Resource " ++ resourceId ++ " allocated to project " ++ p.name] }

/-- The shell command "Use Resource" (main, case 2):
`rm.getResource(id)->setState(ResourceState::InUse)` followed by a log line. -/
def markInUse (m : ResourceManager) (id : String) : Option ResourceManager :=
  (getResource m id).bind fun ra =>
    (m.resHeap[ra]?).map fun r =>
      { m with
        resHeap := m.resHeap.set ra { r with state := ResourceState.InUse },
        log := m.log ++ ["Resource " ++ id ++ " is now in use."] }

/-- `ResourceManager::maintainResource`: only when the type string equals
"equipment" does the state change to UnderMaintenance and a log line get
appended; otherwise nothing changes and the ineligibility is reported on the
console only.  The returned string is the console output. -/
def maintainResource (m : ResourceManager) (id : String) :
    Option (ResourceManager × String) :=
  (getResource m id).bind fun ra =>
    (m.resHeap[ra]?).map fun r =>
      if r.type = "equipment" then
        ({ m with
           resHeap := m.resHeap.set ra { r with state := ResourceState.UnderMaintenance },
           log := m.log ++ ["Resource " ++ id ++ " is under maintenance."] },
         "Resource " ++ id ++ " is under maintenance.\n")
      else
        (m, "Resource " ++ id ++ " is not equipment and cannot be maintained.\n")

/-- `ResourceManager::displayResourceState`: read-only; builds the console
line.  The allocated-project clause is emitted only in the UnderMaintenance
branch and only when the back-reference is set. -/
def displayResourceState (m : ResourceManager) (id : String) : Option String :=
  (getResource m id).bind fun ra =>
    (m.resHeap[ra]?).map fun r =>
      let body : String :=
        match r.state with
        | ResourceState.Idle => "Idle"
        | ResourceState.InUse => "In Use"
        | ResourceState.UnderMaintenance =>
          "under maintenance" ++
            (match r.allocatedProject with
             | some pa =>
               match m.projHeap[pa]? with
               | some p => " and allocated to project " ++ p.name
               | none => ""
             | none => "")
      "Resource " ++ id ++ " is " ++ body ++ ".\n"

/-- The core commands the shell can issue. -/
inductive Op where
  | addResource (id ty : String)
  | addProject (id name : String)
  | markInUse (id : String)
  | maintain (id : String)
  | allocate (resourceId projectId : String)
  | display (id : String)
  deriving DecidableEq, Repr

/-- One step of the interaction loop: a failed lookup unwinds with no effect
on the state (the shell catches and the registry is untouched). -/
def run (m : ResourceManager) : Op → ResourceManager
  | Op.addResource id ty => addResource m id ty
  | Op.addProject id name => addProject m id name
  | Op.markInUse id => (markInUse m id).getD m
  | Op.maintain id => ((maintainResource m id).map Prod.fst).getD m
  | Op.allocate r p => (allocateResourceToProject m r p).getD m
  | Op.display _ => m

/-- The state reached by a command sequence from a fresh manager. -/
def runOps (ops : List Op) : ResourceManager :=
  ops.foldl run ResourceManager.empty

/-- Every resource object in the heap that is Idle has no project
back-reference. -/
def idleUnallocated (m : ResourceManager) : Prop :=
  ∀ r ∈ m.resHeap, r.state = ResourceState.Idle → r.allocatedProject = none

/-- Every resource address in any project list points to a resource in the
heap whose back-reference is set (to some project, not necessarily the one
whose list it sits in). -/
def projListsWF (m : ResourceManager) : Prop :=
  ∀ pr ∈ m.projHeap, ∀ a ∈ pr.resources,
    ∃ r, m.resHeap[a]? = some r ∧ r.allocatedProject ≠ none

/-- The invariant exactly as claim C4 words it: every resource appearing in a
project list has THAT project (by heap address) as its back-reference. -/
def projListsExact (m : ResourceManager) : Prop :=
  ∀ (pa : Nat) (p : Project), m.projHeap[pa]? = some p → ∀ a ∈ p.resources,
    ∃ r : Resource, m.resHeap[a]? = some r ∧ r.allocatedProject = some pa

/-- The command sequence of the stale-allocation scenario: one resource
allocated first to project p1 and then to project p2. -/
def staleScenario : List Op :=
  [Op.addProject "p1" "Alpha", Op.addProject "p2" "Beta",
   Op.addResource "r" "worker", Op.allocate "r" "p1", Op.allocate "r" "p2"]

/-! ### Lemmas about the association-list maps -/

theorem mapFind_mapInsert_self (k : String) (v : Nat) (l : List (String × Nat)) :
    mapFind k (mapInsert k v l) = some v := by
  induction l with
  | nil => simp [mapInsert, mapFind]
  | cons hd tl ih =>
    obtain ⟨k₁, v₁⟩ := hd
    by_cases h : k₁ = k
    · simp [mapInsert, mapFind, h]
    · simp [mapInsert, mapFind, h, ih]

/-! ### The invariant behind claim C9: an Idle resource object has no
back-reference. -/

theorem idleUnallocated_run (m : ResourceManager) (op : Op)
    (h : idleUnallocated m) : idleUnallocated (run m op) := by
  cases op with
  | addResource id ty =>
    intro r hr hs
    simp only [run, addResource, List.mem_append, List.mem_singleton] at hr
    rcases hr with hr | hr
    · exact h r hr hs
    · simp [hr]
  | addProject id name =>
    intro r hr hs
    simp only [run, addProject] at hr
    exact h r hr hs
  | markInUse id =>
    cases hg : getResource m id with
    | none => simpa [run, markInUse, hg] using h
    | some ra =>
      cases hr : m.resHeap[ra]? with
      | none => simpa [run, markInUse, hg, hr] using h
      | some r =>
        intro r' hr' hs
        simp [run, markInUse, hg, hr] at hr'
        rcases List.mem_or_eq_of_mem_set hr' with hmem | heq
        · exact h r' hmem hs
        · rw [heq] at hs; cases hs
  | maintain id =>
    cases hg : getResource m id with
    | none => simpa [run, maintainResource, hg] using h
    | some ra =>
      cases hr : m.resHeap[ra]? with
      | none => simpa [run, maintainResource, hg, hr] using h
      | some r =>
        by_cases hty : r.type = "equipment"
        · intro r' hr' hs
          simp [run, maintainResource, hg, hr, hty] at hr'
          rcases List.mem_or_eq_of_mem_set hr' with hmem | heq
          · exact h r' hmem hs
          · rw [heq] at hs; cases hs
        · simpa [run, maintainResource, hg, hr, hty] using h
  | allocate rid pid =>
    cases hp : getProject m pid with
    | none => simpa [run, allocateResourceToProject, hp] using h
    | some pa =>
      cases hg : getResource m rid with
      | none => simpa [run, allocateResourceToProject, hp, hg] using h
      | some ra =>
        cases hr : m.resHeap[ra]? with
        | none => simpa [run, allocateResourceToProject, hp, hg, hr] using h
        | some r =>
          cases hpr : m.projHeap[pa]? with
          | none => simpa [run, allocateResourceToProject, hp, hg, hr, hpr] using h
          | some p =>
            intro r' hr' hs
            simp [run, allocateResourceToProject, hp, hg, hr, hpr, List.set_set] at hr'
            rcases List.mem_or_eq_of_mem_set hr' with hmem | heq
            · exact h r' hmem hs
            · rw [heq] at hs; cases hs
  | display id =>
    exact h

theorem idleUnallocated_foldl (ops : List Op) :
    ∀ m : ResourceManager, idleUnallocated m → idleUnallocated (ops.foldl run m) := by
  induction ops with
  | nil => intro m h; exact h
  | cons op rest ih =>
    intro m h
    exact ih (run m op) (idleUnallocated_run m op h)

theorem idleUnallocated_runOps (ops : List Op) : idleUnallocated (runOps ops) := by
  have hempty : idleUnallocated ResourceManager.empty := by
    intro r hr
    simp [ResourceManager.empty] at hr
  exact idleUnallocated_foldl ops ResourceManager.empty hempty

/-! ### The invariant behind the amended claim C4: every address in a project
list points to a resource object whose back-reference is set. -/

theorem getElem?_set_same {α : Type} (l : List α) (i : Nat) (a b : α)
    (h : l[i]? = some b) : (l.set i a)[i]? = some a := by
  have hlt : i < l.length := (List.getElem?_eq_some.mp h).1
  simp [List.getElem?_set, hlt]

theorem projListsWF_run (m : ResourceManager) (op : Op)
    (h : projListsWF m) : projListsWF (run m op) := by
  cases op with
  | addResource id ty =>
    intro pr hpr a ha
    simp only [run, addResource] at hpr
    rcases h pr hpr a ha with ⟨r, hrg, hn⟩
    have hlt : a < m.resHeap.length := (List.getElem?_eq_some.mp hrg).1
    refine ⟨r, ?_, hn⟩
    simp only [run, addResource]
    rw [List.getElem?_append_left hlt]
    exact hrg
  | addProject id name =>
    intro pr hpr a ha
    simp only [run, addProject, List.mem_append, List.mem_singleton] at hpr
    rcases hpr with hpr | hpr
    · rcases h pr hpr a ha with ⟨r, hrg, hn⟩
      exact ⟨r, by simpa [run, addProject] using hrg, hn⟩
    · rw [hpr] at ha
      simp at ha
  | markInUse id =>
    cases hg : getResource m id with
    | none => simpa [run, markInUse, hg] using h
    | some ra =>
      cases hr : m.resHeap[ra]? with
      | none => simpa [run, markInUse, hg, hr] using h
      | some r =>
        intro pr hpr a ha
        simp [run, markInUse, hg, hr] at hpr
        rcases h pr hpr a ha with ⟨r₀, hrg, hn⟩
        by_cases hra : ra = a
        · subst hra
          have hq : r₀ = r := by rw [hrg] at hr; exact Option.some_inj.mp hr
          refine ⟨{ r with state := ResourceState.InUse }, ?_, ?_⟩
          · simp [run, markInUse, hg, hr, getElem?_set_same m.resHeap ra _ r hr]
          · simpa using hq ▸ hn
        · refine ⟨r₀, ?_, hn⟩
          simp [run, markInUse, hg, hr, List.getElem?_set_ne hra]
          exact hrg
  | maintain id =>
    cases hg : getResource m id with
    | none => simpa [run, maintainResource, hg] using h
    | some ra =>
      cases hr : m.resHeap[ra]? with
      | none => simpa [run, maintainResource, hg, hr] using h
      | some r =>
        by_cases hty : r.type = "equipment"
        · intro pr hpr a ha
          simp [run, maintainResource, hg, hr, hty] at hpr
          rcases h pr hpr a ha with ⟨r₀, hrg, hn⟩
          by_cases hra : ra = a
          · subst hra
            have hq : r₀ = r := by rw [hrg] at hr; exact Option.some_inj.mp hr
            refine ⟨{ r with state := ResourceState.UnderMaintenance }, ?_, ?_⟩
            · simp [run, maintainResource, hg, hr, hty,
                    getElem?_set_same m.resHeap ra _ r hr]
            · simpa using hq ▸ hn
          · refine ⟨r₀, ?_, hn⟩
            simp [run, maintainResource, hg, hr, hty, List.getElem?_set_ne hra]
            exact hrg
        · simpa [run, maintainResource, hg, hr, hty] using h
  | allocate rid pid =>
    cases hp : getProject m pid with
    | none => simpa [run, allocateResourceToProject, hp] using h
    | some pa =>
      cases hg : getResource m rid with
      | none => simpa [run, allocateResourceToProject, hp, hg] using h
      | some ra =>
        cases hr : m.resHeap[ra]? with
        | none => simpa [run, allocateResourceToProject, hp, hg, hr] using h
        | some r =>
          cases hpr : m.projHeap[pa]? with
          | none => simpa [run, allocateResourceToProject, hp, hg, hr, hpr] using h
          | some p =>
            intro pr hpr₁ a ha
            simp [run, allocateResourceToProject, hp, hg, hr, hpr, List.set_set] at hpr₁
            have hnew : ∀ b : Nat, b ∈ p.resources ∨ b = ra →
                ∃ r₂, ((m.resHeap.set ra
                    { r with state := ResourceState.InUse,
                             allocatedProject := some pa })[b]? = some r₂ ∧
                  r₂.allocatedProject ≠ none) := by
              intro b hb
              by_cases hrb : ra = b
              · subst hrb
                exact ⟨_, getElem?_set_same m.resHeap ra _ r hr, by simp⟩
              · rcases hb with hb | hb
                · rcases h p (List.getElem?_mem hpr) b hb with ⟨r₀, hrg, hn⟩
                  exact ⟨r₀, by rw [List.getElem?_set_ne hrb]; exact hrg, hn⟩
                · exact absurd hb.symm hrb
            rcases List.mem_or_eq_of_mem_set hpr₁ with hmem | heq
            · rcases h pr hmem a ha with ⟨r₀, hrg, hn⟩
              by_cases hra : ra = a
              · subst hra
                refine ⟨{ r with state := ResourceState.InUse, allocatedProject := some pa },
                        ?_, by simp⟩
                simp [run, allocateResourceToProject, hp, hg, hr, hpr, List.set_set,
                      getElem?_set_same m.resHeap ra _ r hr]
              · refine ⟨r₀, ?_, hn⟩
                simp [run, allocateResourceToProject, hp, hg, hr, hpr, List.set_set,
                      List.getElem?_set_ne hra]
                exact hrg
            · rw [heq] at ha
              simp only [List.mem_append, List.mem_singleton] at ha
              rcases hnew a ha with ⟨r₂, hlook, hn⟩
              refine ⟨r₂, ?_, hn⟩
              simp [run, allocateResourceToProject, hp, hg, hr, hpr, List.set_set]
              exact hlook
  | display id =>
    exact h

theorem projListsWF_foldl (ops : List Op) :
    ∀ m : ResourceManager, projListsWF m → projListsWF (ops.foldl run m) := by
  induction ops with
  | nil => intro m h; exact h
  | cons op rest ih =>
    intro m h
    exact ih (run m op) (projListsWF_run m op h)

theorem projListsWF_runOps (ops : List Op) : projListsWF (runOps ops) := by
  have hempty : projListsWF ResourceManager.empty := by
    intro pr hpr
    simp [ResourceManager.empty] at hpr
  exact projListsWF_foldl ops ResourceManager.empty hempty

/-! ### Step lemma behind the amended claim C7: a resource OBJECT that has
left Idle never shows Idle again; only re-registration (which installs a
fresh object under the id) can make the id display Idle anew. -/

theorem resource_state_step (m : ResourceManager) (op : Op) (a : Nat) (r : Resource)
    (h : m.resHeap[a]? = some r) :
    ∃ r₂, (run m op).resHeap[a]? = some r₂ ∧
      (r.state ≠ ResourceState.Idle → r₂.state ≠ ResourceState.Idle) := by
  have hlt : a < m.resHeap.length := (List.getElem?_eq_some.mp h).1
  cases op with
  | addResource id ty =>
    refine ⟨r, ?_, fun hne => hne⟩
    simp only [run, addResource]
    rw [List.getElem?_append_left hlt]
    exact h
  | addProject id name =>
    exact ⟨r, by simpa [run, addProject] using h, fun hne => hne⟩
  | markInUse id =>
    cases hg : getResource m id with
    | none => exact ⟨r, by simpa [run, markInUse, hg] using h, fun hne => hne⟩
    | some ra =>
      cases hr : m.resHeap[ra]? with
      | none => exact ⟨r, by simpa [run, markInUse, hg, hr] using h, fun hne => hne⟩
      | some r₀ =>
        by_cases hra : ra = a
        · subst hra
          refine ⟨{ r₀ with state := ResourceState.InUse }, ?_, fun _ => by simp⟩
          simp [run, markInUse, hg, hr, getElem?_set_same m.resHeap ra _ r₀ hr]
        · refine ⟨r, ?_, fun hne => hne⟩
          simp [run, markInUse, hg, hr, List.getElem?_set_ne hra]
          exact h
  | maintain id =>
    cases hg : getResource m id with
    | none => exact ⟨r, by simpa [run, maintainResource, hg] using h, fun hne => hne⟩
    | some ra =>
      cases hr : m.resHeap[ra]? with
      | none =>
        exact ⟨r, by simpa [run, maintainResource, hg, hr] using h, fun hne => hne⟩
      | some r₀ =>
        by_cases hty : r₀.type = "equipment"
        · by_cases hra : ra = a
          · subst hra
            refine ⟨{ r₀ with state := ResourceState.UnderMaintenance }, ?_, fun _ => by simp⟩
            simp [run, maintainResource, hg, hr, hty,
                  getElem?_set_same m.resHeap ra _ r₀ hr]
          · refine ⟨r, ?_, fun hne => hne⟩
            simp [run, maintainResource, hg, hr, hty, List.getElem?_set_ne hra]
            exact h
        · exact ⟨r, by simpa [run, maintainResource, hg, hr, hty] using h, fun hne => hne⟩
  | allocate rid pid =>
    cases hp : getProject m pid with
    | none => exact ⟨r, by simpa [run, allocateResourceToProject, hp] using h, fun hne => hne⟩
    | some pa =>
      cases hg : getResource m rid with
      | none =>
        exact ⟨r, by simpa [run, allocateResourceToProject, hp, hg] using h, fun hne => hne⟩
      | some ra =>
        cases hr : m.resHeap[ra]? with
        | none =>
          exact ⟨r, by simpa [run, allocateResourceToProject, hp, hg, hr] using h,
                 fun hne => hne⟩
        | some r₀ =>
          cases hpr : m.projHeap[pa]? with
          | none =>
            exact ⟨r, by simpa [run, allocateResourceToProject, hp, hg, hr, hpr] using h,
                   fun hne => hne⟩
          | some p =>
            by_cases hra : ra = a
            · subst hra
              refine ⟨{ r₀ with state := ResourceState.InUse, allocatedProject := some pa }, ?_, fun _ => by simp⟩
              simp [run, allocateResourceToProject, hp, hg, hr, hpr, List.set_set,
                    getElem?_set_same m.resHeap ra _ r₀ hr]
            · refine ⟨r, ?_, fun hne => hne⟩
              simp [run, allocateResourceToProject, hp, hg, hr, hpr, List.set_set,
                    List.getElem?_set_ne hra]
              exact h
  | display id =>
    exact ⟨r, by simpa [run] using h, fun hne => hne⟩

theorem resource_state_foldl (ops : List Op) :
    ∀ (m : ResourceManager) (a : Nat) (r : Resource), m.resHeap[a]? = some r →
      ∃ r₂, (ops.foldl run m).resHeap[a]? = some r₂ ∧
        (r.state ≠ ResourceState.Idle → r₂.state ≠ ResourceState.Idle) := by
  induction ops with
  | nil => exact fun m a r h => ⟨r, h, fun hne => hne⟩
  | cons op rest ih =>
    intro m a r h
    rcases resource_state_step m op a r h with ⟨r₁, h₁, himp₁⟩
    rcases ih (run m op) a r₁ h₁ with ⟨r₂, h₂, himp₂⟩
    exact ⟨r₂, h₂, fun hne => himp₂ (himp₁ hne)⟩

/-! ### String-folding helper for the display theorems -/

theorem app_fold (a b c : String) (h : a ++ b = c) (x : String) :
    a ++ (b ++ x) = c ++ x := by
  rw [← String.append_assoc, h]

/-! ### Lookup after registration -/

theorem getResource_addResource_self (m : ResourceManager) (id ty : String) :
    getResource (addResource m id ty) id = some m.resHeap.length := by
  simp [getResource, addResource, mapFind_mapInsert_self]

theorem resHeap_addResource_self (m : ResourceManager) (id ty : String) :
    (addResource m id ty).resHeap[m.resHeap.length]? =
      some ⟨id, ty, ResourceState.Idle, none⟩ := by
  simp [addResource, List.getElem?_concat_length]

/-! ### Claim theorems -/

/-- Claim C1, counterexample: registering the resource id "r" a second time
does not fail at all — `ResourceManager::addResource` assigns through
`std::map::operator[]` with no presence check — and it changes the registry
mapping: the entry for "r" is redirected from the first object (address 0,
type "worker") to a fresh second object (address 1, type "equipment"). -/
theorem register_duplicate_counterexample :
    (addResource ResourceManager.empty "r" "worker").resMap = [("r", 0)] ∧
    (addResource (addResource ResourceManager.empty "r" "worker") "r" "equipment").resMap =
      [("r", 1)] ∧
    ((addResource (addResource ResourceManager.empty "r" "worker") "r" "equipment").resHeap[1]?) =
      some ⟨"r", "equipment", ResourceState.Idle, none⟩ := by
  refine ⟨rfl, rfl, rfl⟩

/-- Claim C1 (amended): registering an id that is already present does not
fail with DuplicateId; registration is total and redirects the mapping to a
freshly constructed entry — for a resource a fresh Idle object with the given
type and no allocation, for a project a fresh object with the given name and
empty resource list — so the registry mapping is changed, not left unchanged. -/
theorem register_existing_overwrites (m : ResourceManager) (rid ty pid name : String) :
    getResource (addResource m rid ty) rid = some m.resHeap.length ∧
    (addResource m rid ty).resHeap[m.resHeap.length]? =
      some ⟨rid, ty, ResourceState.Idle, none⟩ ∧
    getProject (addProject m pid name) pid = some m.projHeap.length ∧
    (addProject m pid name).projHeap[m.projHeap.length]? = some ⟨pid, name, []⟩ := by
  refine ⟨getResource_addResource_self m rid ty, resHeap_addResource_self m rid ty, ?_, ?_⟩
  · simp [getProject, addProject, mapFind_mapInsert_self]
  · simp [addProject, List.getElem?_concat_length]

/-- Claim C5: registering a resource id and immediately displaying it yields
the Idle line with no allocated-project clause, whatever the registry held
before (registration always installs a fresh Idle object under the id). -/
theorem register_then_display_idle (m : ResourceManager) (id ty : String) :
    displayResourceState (addResource m id ty) id =
      some ("Resource " ++ id ++ " is Idle.\n") := by
  simp [displayResourceState, getResource_addResource_self m id ty,
        resHeap_addResource_self m id ty, String.append_assoc]

/-- Claim C2: for an existing resource, maintain on an equipment-typed
resource sets its state to UnderMaintenance and appends exactly one log
record (the maintenance line); on a worker-typed resource the manager is
returned completely unchanged — no state change, no log record — and the
ineligibility is reported in the console output only. -/
theorem maintain_equipment_worker (m : ResourceManager) (id : String) (ra : Nat)
    (r : Resource) (hg : getResource m id = some ra) (hr : m.resHeap[ra]? = some r) :
    (r.type = "equipment" →
      ((maintainResource m id).map fun x => (x.1.resHeap[ra]?, x.1.log, x.2)) =
        some (some { r with state := ResourceState.UnderMaintenance },
              m.log ++ ["Resource " ++ id ++ " is under maintenance."],
              "Resource " ++ id ++ " is under maintenance.\n")) ∧
    (r.type = "worker" →
      maintainResource m id =
        some (m, "Resource " ++ id ++ " is not equipment and cannot be maintained.\n")) := by
  constructor
  · intro hty
    simp [maintainResource, hg, hr, hty, getElem?_set_same m.resHeap ra _ r hr]
  · intro hty
    simp [maintainResource, hg, hr, hty]

/-- Witness for claim C2 at a concrete input: a freshly registered equipment
resource "e". -/
theorem maintain_equipment_worker_witness :
    (getResource (addResource ResourceManager.empty "e" "equipment") "e" = some 0) ∧
    ((addResource ResourceManager.empty "e" "equipment").resHeap[0]? =
      some ⟨"e", "equipment", ResourceState.Idle, none⟩) ∧
    ((("e" : String) = "e") →
      ((maintainResource (addResource ResourceManager.empty "e" "equipment") "e").map
          fun x => (x.1.resHeap[0]?, x.1.log, x.2)) =
        some (some ⟨"e", "equipment", ResourceState.UnderMaintenance, none⟩,
              [("Resource " ++ "e" ++ " is under maintenance." : String)],
              ("Resource " ++ "e" ++ " is under maintenance.\n" : String))) := by
  refine ⟨by decide, by decide, fun _ => ?_⟩
  have h := maintain_equipment_worker (addResource ResourceManager.empty "e" "equipment")
    "e" 0 ⟨"e", "equipment", ResourceState.Idle, none⟩ (by decide) (by decide)
  exact h.1 rfl

/-- Claim C3: allocate on an existing resource and project sets the resource
state to InUse, overwrites its back-reference to that project, appends the
resource address to the project list so its occurrence count grows by exactly
one (calling twice duplicates the entry — no idempotence), and appends
exactly one log record. -/
theorem allocate_effects (m : ResourceManager) (rid pid : String) (ra pa : Nat)
    (r : Resource) (p : Project)
    (hp : getProject m pid = some pa) (hg : getResource m rid = some ra)
    (hr : m.resHeap[ra]? = some r) (hpp : m.projHeap[pa]? = some p) :
    ((allocateResourceToProject m rid pid).map
        fun m₂ => (m₂.resHeap[ra]?, m₂.projHeap[pa]?, m₂.log)) =
      some (some { r with state := ResourceState.InUse, allocatedProject := some pa },
            some { p with resources := p.resources ++ [ra] },
            m.log ++ ["Resource " ++ rid ++ " allocated to project " ++ p.name]) ∧
    ((allocateResourceToProject m rid pid).map
        fun m₂ => (m₂.projHeap[pa]?).map fun q => q.resources.count ra) =
      some (some (p.resources.count ra + 1)) := by
  constructor
  · simp [allocateResourceToProject, hp, hg, hr, hpp, List.set_set,
          getElem?_set_same m.resHeap ra _ r hr,
          getElem?_set_same m.projHeap pa _ p hpp]
  · simp [allocateResourceToProject, hp, hg, hr, hpp, List.set_set,
          getElem?_set_same m.projHeap pa _ p hpp, List.count_append,
          List.count_singleton]

/-- Witness for claim C3: a fresh worker "r" allocated to project "p". -/
theorem allocate_effects_witness :
    getProject (runOps [Op.addProject "p" "Alpha", Op.addResource "r" "worker"]) "p" = some 0 ∧
    getResource (runOps [Op.addProject "p" "Alpha", Op.addResource "r" "worker"]) "r" = some 0 ∧
    (runOps [Op.addProject "p" "Alpha", Op.addResource "r" "worker"]).resHeap[0]? =
      some ⟨"r", "worker", ResourceState.Idle, none⟩ ∧
    (runOps [Op.addProject "p" "Alpha", Op.addResource "r" "worker"]).projHeap[0]? =
      some ⟨"p", "Alpha", []⟩ ∧
    (((allocateResourceToProject
          (runOps [Op.addProject "p" "Alpha", Op.addResource "r" "worker"]) "r" "p").map
        fun m₂ => (m₂.resHeap[0]?, m₂.projHeap[0]?, m₂.log)) =
      some (some ⟨"r", "worker", ResourceState.InUse, some 0⟩,
            some ⟨"p", "Alpha", [0]⟩,
            [("Resource " ++ "r" ++ " allocated to project " ++ "Alpha" : String)]) ∧
     ((allocateResourceToProject
          (runOps [Op.addProject "p" "Alpha", Op.addResource "r" "worker"]) "r" "p").map
        fun m₂ => (m₂.projHeap[0]?).map fun q => q.resources.count 0) =
      some (some 1)) := by
  refine ⟨by decide, by decide, by decide, by decide, ?_⟩
  exact allocate_effects (runOps [Op.addProject "p" "Alpha", Op.addResource "r" "worker"])
    "r" "p" 0 0 ⟨"r", "worker", ResourceState.Idle, none⟩ ⟨"p", "Alpha", []⟩
    (by decide) (by decide) (by decide) (by decide)

/-- Claim C6: displayResourceState is read-only and produces the Idle, In
Use, or under-maintenance description according to the resource state; the
allocated-project clause is appended exactly when the state is
UnderMaintenance and the back-reference is set, and never in the InUse case,
whatever the back-reference holds. -/
theorem display_state_spec (m : ResourceManager) (id : String) (ra : Nat)
    (r : Resource) (hg : getResource m id = some ra) (hr : m.resHeap[ra]? = some r) :
    run m (Op.display id) = m ∧
    (r.state = ResourceState.Idle →
      displayResourceState m id = some ("Resource " ++ id ++ " is Idle.\n")) ∧
    (r.state = ResourceState.InUse →
      displayResourceState m id = some ("Resource " ++ id ++ " is In Use.\n")) ∧
    (r.state = ResourceState.UnderMaintenance → r.allocatedProject = none →
      displayResourceState m id = some ("Resource " ++ id ++ " is under maintenance.\n")) ∧
    (∀ (pa : Nat) (p : Project), r.state = ResourceState.UnderMaintenance →
      r.allocatedProject = some pa → m.projHeap[pa]? = some p →
      displayResourceState m id =
        some ("Resource " ++ id ++ " is under maintenance and allocated to project " ++
              p.name ++ ".\n")) := by
  refine ⟨rfl, ?_, ?_, ?_, ?_⟩
  · intro hs
    simp [displayResourceState, hg, hr, hs, String.append_assoc]
  · intro hs
    simp [displayResourceState, hg, hr, hs, String.append_assoc]
  · intro hs hb
    simp [displayResourceState, hg, hr, hs, hb, String.append_assoc]
  · intro pa p hs hb hpp
    simp [displayResourceState, hg, hr, hs, hb, hpp, String.append_assoc]
    rw [app_fold " is " "under maintenance" " is under maintenance" rfl,
        app_fold " is under maintenance" " and allocated to project "
          " is under maintenance and allocated to project " rfl]

/-- Witness for claim C6: equipment "e" allocated to project "p" and then
put under maintenance displays the clause with the project name. -/
theorem display_state_spec_witness :
    getResource (runOps [Op.addResource "e" "equipment", Op.addProject "p" "Alpha",
      Op.allocate "e" "p", Op.maintain "e"]) "e" = some 0 ∧
    (runOps [Op.addResource "e" "equipment", Op.addProject "p" "Alpha",
      Op.allocate "e" "p", Op.maintain "e"]).resHeap[0]? =
      some ⟨"e", "equipment", ResourceState.UnderMaintenance, some 0⟩ ∧
    displayResourceState (runOps [Op.addResource "e" "equipment", Op.addProject "p" "Alpha",
        Op.allocate "e" "p", Op.maintain "e"]) "e" =
      some "Resource e is under maintenance and allocated to project Alpha.\n" := by
  refine ⟨by decide, by decide, ?_⟩
  have h := display_state_spec (runOps [Op.addResource "e" "equipment",
      Op.addProject "p" "Alpha", Op.allocate "e" "p", Op.maintain "e"]) "e" 0
    ⟨"e", "equipment", ResourceState.UnderMaintenance, some 0⟩ (by decide) (by decide)
  exact h.2.2.2.2 0 ⟨"p", "Alpha", [0]⟩ rfl rfl (by decide)

/-- Claim C8: invoking an operation that needs a resource or project id with
an id that is not in the registry fails (the lookup throws, modelled as
none) and the interaction step leaves the manager — heaps, maps and
log — completely unchanged: the failure is atomic. -/
theorem notfound_no_effect (m : ResourceManager) (rid pid : String) :
    (getResource m rid = none →
      markInUse m rid = none ∧ maintainResource m rid = none ∧
      displayResourceState m rid = none ∧ allocateResourceToProject m rid pid = none ∧
      run m (Op.markInUse rid) = m ∧ run m (Op.maintain rid) = m ∧
      run m (Op.allocate rid pid) = m ∧ run m (Op.display rid) = m) ∧
    (getProject m pid = none →
      allocateResourceToProject m rid pid = none ∧ run m (Op.allocate rid pid) = m) := by
  constructor
  · intro hg
    have hmk : markInUse m rid = none := by simp [markInUse, hg]
    have hmt : maintainResource m rid = none := by simp [maintainResource, hg]
    have hds : displayResourceState m rid = none := by simp [displayResourceState, hg]
    have hal : allocateResourceToProject m rid pid = none := by
      cases hp : getProject m pid <;> simp [allocateResourceToProject, hg, hp]
    exact ⟨hmk, hmt, hds, hal, by simp [run, hmk], by simp [run, hmt],
           by simp [run, hal], rfl⟩
  · intro hp
    have hal : allocateResourceToProject m rid pid = none := by
      simp [allocateResourceToProject, hp]
    exact ⟨hal, by simp [run, hal]⟩

/-- Witness for claim C8: the empty registry rejects every id. -/
theorem notfound_no_effect_witness :
    getResource ResourceManager.empty "x" = none ∧
    markInUse ResourceManager.empty "x" = none ∧
    maintainResource ResourceManager.empty "x" = none ∧
    displayResourceState ResourceManager.empty "x" = none ∧
    allocateResourceToProject ResourceManager.empty "x" "y" = none ∧
    run ResourceManager.empty (Op.markInUse "x") = ResourceManager.empty := by
  have h := (notfound_no_effect ResourceManager.empty "x" "y").1 (by decide)
  exact ⟨by decide, h.1, h.2.1, h.2.2.1, h.2.2.2.1, h.2.2.2.2.1⟩

/-- Claim C10: markInUse and maintain modify at most the state field of the
looked-up resource (and the log): its id, type and back-reference are kept,
every other resource is unchanged, and the project heap and both registry
maps are untouched. -/
theorem mark_maintain_frame (m : ResourceManager) (id : String) (ra : Nat)
    (r : Resource) (hg : getResource m id = some ra) (hr : m.resHeap[ra]? = some r) :
    (∀ m₂, markInUse m id = some m₂ →
      m₂.resHeap[ra]? = some { r with state := ResourceState.InUse } ∧
      (∀ b, b ≠ ra → m₂.resHeap[b]? = m.resHeap[b]?) ∧
      m₂.projHeap = m.projHeap ∧ m₂.resMap = m.resMap ∧ m₂.projMap = m.projMap) ∧
    (∀ m₂ out, maintainResource m id = some (m₂, out) →
      (∃ s, m₂.resHeap[ra]? = some { r with state := s }) ∧
      (∀ b, b ≠ ra → m₂.resHeap[b]? = m.resHeap[b]?) ∧
      m₂.projHeap = m.projHeap ∧ m₂.resMap = m.resMap ∧ m₂.projMap = m.projMap) := by
  constructor
  · intro m₂ hm
    simp [markInUse, hg, hr] at hm
    subst hm
    exact ⟨getElem?_set_same m.resHeap ra _ r hr,
           fun b hb => List.getElem?_set_ne (Ne.symm hb), rfl, rfl, rfl⟩
  · intro m₂ out hm
    by_cases hty : r.type = "equipment"
    · simp [maintainResource, hg, hr, hty] at hm
      obtain ⟨hm₂, hout⟩ := hm
      subst hm₂
      refine ⟨⟨ResourceState.UnderMaintenance, ?_⟩,
              fun b hb => List.getElem?_set_ne (Ne.symm hb), rfl, rfl, rfl⟩
      rw [hty]
      exact getElem?_set_same m.resHeap ra _ r hr
    · simp [maintainResource, hg, hr, hty] at hm
      obtain ⟨hm₂, hout⟩ := hm
      subst hm₂
      exact ⟨⟨r.state, hr⟩, fun b hb => rfl, rfl, rfl, rfl⟩

/-- Witness for claim C10: marking the fresh equipment "e" in use leaves the
project heap untouched. -/
theorem mark_maintain_frame_witness :
    getResource (runOps [Op.addResource "e" "equipment"]) "e" = some 0 ∧
    (runOps [Op.addResource "e" "equipment"]).resHeap[0]? =
      some ⟨"e", "equipment", ResourceState.Idle, none⟩ ∧
    (runOps [Op.addResource "e" "equipment", Op.markInUse "e"]).projHeap =
      (runOps [Op.addResource "e" "equipment"]).projHeap := by
  refine ⟨by decide, by decide, ?_⟩
  have h := (mark_maintain_frame (runOps [Op.addResource "e" "equipment"]) "e" 0
    ⟨"e", "equipment", ResourceState.Idle, none⟩ (by decide) (by decide)).1
    (runOps [Op.addResource "e" "equipment", Op.markInUse "e"]) (by decide)
  exact h.2.2.1

/-- Claim C9: in every state reachable from the empty registry every Idle
resource object has no project back-reference, and every single operation
(registration of resources and projects, allocate, markInUse, maintain,
display) preserves this invariant from any state. -/
theorem idle_resources_unallocated (ops : List Op) (m : ResourceManager) (op : Op) :
    idleUnallocated (runOps ops) ∧
    (idleUnallocated m → idleUnallocated (run m op)) :=
  ⟨idleUnallocated_runOps ops, idleUnallocated_run m op⟩

/-- Witness for claim C9 at a concrete command sequence and step. -/
theorem idle_resources_unallocated_witness :
    idleUnallocated ResourceManager.empty ∧
    (idleUnallocated (runOps [Op.addResource "r" "worker"]) ∧
      (idleUnallocated ResourceManager.empty →
        idleUnallocated (run ResourceManager.empty (Op.addResource "r" "worker")))) := by
  have hempty : idleUnallocated ResourceManager.empty := by
    intro r hr hs
    simp [ResourceManager.empty] at hr
  exact ⟨hempty, idle_resources_unallocated [Op.addResource "r" "worker"]
    ResourceManager.empty (Op.addResource "r" "worker")⟩

/-- Claim C4, counterexample: after allocating resource "r" first to project
"p1" and then to project "p2", project p1 (heap address 0) still lists
resource address 0, but that resource object's back-reference is project
address 1 (p2): the invariant as the claim states it fails in a reachable
state, because allocate never removes the entry from the old project list. -/
theorem project_backref_counterexample : ¬ projListsExact (runOps staleScenario) := by
  intro h
  rcases h 0 ⟨"p1", "Alpha", [0]⟩ (by decide) 0 (List.mem_singleton.mpr rfl) with ⟨r, hr, hb⟩
  have h0 : (runOps staleScenario).resHeap[0]? =
      some (⟨"r", "worker", ResourceState.InUse, some 1⟩ : Resource) := by decide
  rw [h0] at hr
  rw [← Option.some_inj.mp hr] at hb
  simp at hb

/-- Claim C4 (amended): in every reachable state, every resource address in a
project list points to a live resource object whose back-reference is set to
SOME project — but not necessarily the project whose list it sits in:
re-allocation to a different project overwrites the back-reference while the
stale entry in the old project list persists (see the counterexample).  Every
operation preserves this weakened invariant. -/
theorem project_lists_backref (ops : List Op) (m : ResourceManager) (op : Op) :
    projListsWF (runOps ops) ∧
    (projListsWF m → projListsWF (run m op)) :=
  ⟨projListsWF_runOps ops, projListsWF_run m op⟩

/-- Witness for the amended claim C4 at the stale-allocation scenario. -/
theorem project_lists_backref_witness :
    projListsWF ResourceManager.empty ∧
    (projListsWF (runOps staleScenario) ∧
      (projListsWF ResourceManager.empty →
        projListsWF (run ResourceManager.empty (Op.addProject "p" "Alpha")))) := by
  have hempty : projListsWF ResourceManager.empty := by
    intro pr hpr
    simp [ResourceManager.empty] at hpr
  exact ⟨hempty, project_lists_backref staleScenario ResourceManager.empty
    (Op.addProject "p" "Alpha")⟩

/-- Claim C7, counterexample: the observable state of a registered id CAN go
back from In Use to Idle, because re-registering the id (a core operation,
with no duplicate check) installs a fresh Idle object under it. -/
theorem return_to_idle_counterexample :
    displayResourceState (runOps [Op.addResource "r" "worker", Op.markInUse "r"]) "r" =
      some "Resource r is In Use.\n" ∧
    displayResourceState (runOps [Op.addResource "r" "worker", Op.markInUse "r",
        Op.addResource "r" "worker"]) "r" =
      some "Resource r is Idle.\n" := by
  exact ⟨by decide, by decide⟩

/-- Claim C7 (amended): no sequence of core operations ever returns a given
resource OBJECT from InUse or UnderMaintenance to Idle: once the object at a
heap address has left Idle, it never shows Idle again after any further
operations.  Only re-registration of the same id replaces the object by a
fresh Idle one, which is how the observable state of an id can revert (see
the counterexample). -/
theorem no_return_to_idle (m : ResourceManager) (ops : List Op) (a : Nat)
    (r r₂ : Resource) (h : m.resHeap[a]? = some r)
    (h₂ : (ops.foldl run m).resHeap[a]? = some r₂)
    (hne : r.state ≠ ResourceState.Idle) : r₂.state ≠ ResourceState.Idle := by
  rcases resource_state_foldl ops m a r h with ⟨r₃, h₃, himp⟩
  rw [h₂] at h₃
  rw [Option.some_inj.mp h₃]
  exact himp hne

/-- Witness for the amended claim C7: the worker "r", once In Use, is still
not Idle after a further maintain command. -/
theorem no_return_to_idle_witness :
    (runOps [Op.addResource "r" "worker", Op.markInUse "r"]).resHeap[0]? =
      some ⟨"r", "worker", ResourceState.InUse, none⟩ ∧
    ([Op.maintain "r"].foldl run
        (runOps [Op.addResource "r" "worker", Op.markInUse "r"])).resHeap[0]? =
      some ⟨"r", "worker", ResourceState.InUse, none⟩ ∧
    (⟨"r", "worker", ResourceState.InUse, none⟩ : Resource).state ≠ ResourceState.Idle ∧
    (⟨"r", "worker", ResourceState.InUse, none⟩ : Resource).state ≠ ResourceState.Idle := by
  refine ⟨by decide, by decide, by decide, ?_⟩
  exact no_return_to_idle (runOps [Op.addResource "r" "worker", Op.markInUse "r"])
    [Op.maintain "r"] 0 ⟨"r", "worker", ResourceState.InUse, none⟩
    ⟨"r", "worker", ResourceState.InUse, none⟩ (by decide) (by decide) (by decide)

end FTMS
